import Mathlib

/-!
Shallow embedding of the CarBnR backend's referential-integrity and
reservation-scheduling core (Express + Mongoose application).

Entities are records, the Mongo database is a `Store` of lists, and each
controller/middleware path that the verified properties touch is translated
into an explicit state-passing function:

* `normalizeName` — the `set` + `trim` options of `stateSchema.name` and
  `citySchema.name` (title-casing via `replace(/\w\S*/g, ...)`).
* `normalizePhone` / `validPhone` — the `set` + `validate` of
  `locationSchema.phone_number`.
* `locationFind` — `Location.find` with the `pre(/^find/)` soft-delete hook.
* `saveReservation` — `new Reservation(...).save()`: schema validation, the
  price `pre('save')` hook, the overlap `pre('save')` hook, then insert.
* `updateReservationStatus` — `Reservation.findByIdAndUpdate(id, {status})`.
* `deleteState` / `deleteLocation` and the `deleteMany` cascade chain — the
  `findByIdAndDelete` controllers together with each schema's cascade hooks.

Dates are naturals (milliseconds since the epoch, as JavaScript `Date`
arithmetic yields); ids are naturals standing for Mongo ObjectIds, which the
database keeps unique per collection.
-/

/-- JavaScript `\w` character class: ASCII letters, digits and underscore. -/
def isWordChar (c : Char) : Bool :=
  c.isAlpha || c.isDigit || c = '_'

/-- Whitespace as the string routines see it. -/
def isSpaceChar (c : Char) : Bool :=
  c.isWhitespace

/-- `value.replace(/\w\S*/g, txt => txt.charAt(0).toUpperCase() +
txt.substr(1).toLowerCase())` from `stateSchema.name` and `citySchema.name`:
a match starts at a word character and runs through the following non-space
characters; its first character is uppercased and the rest lowercased.
The flag says whether the scan is inside a match. -/
def titleCaseAux : Bool → List Char → List Char
  | _, [] => []
  | false, c :: rest =>
      if isWordChar c then c.toUpper :: titleCaseAux true rest
      else c :: titleCaseAux false rest
  | true, c :: rest =>
      if isSpaceChar c then c :: titleCaseAux false rest
      else c.toLower :: titleCaseAux true rest

/-- Leading whitespace removed. -/
def dropLeadingSpace (l : List Char) : List Char :=
  l.dropWhile isSpaceChar

/-- Surrounding whitespace removed (the `trim: true` schema option). -/
def trimChars (l : List Char) : List Char :=
  (dropLeadingSpace ((dropLeadingSpace l.reverse).reverse))

/-- Name normalization of `State.name` and `City.name`: the `trim` option and
the title-casing setter (their composition is the same in either order, since
the setter leaves whitespace in place). -/
def normalizeName (s : String) : String :=
  ⟨titleCaseAux false (trimChars s.data)⟩

/-- A character the phone setter keeps: `v.replace(/[^\d+]/g, '')` removes
everything that is not a digit and not a `+`. -/
def isPhoneKept (c : Char) : Bool :=
  c.isDigit || c = '+'

/-- The `locationSchema.phone_number` setter: every character that is neither
a digit nor `+` is removed (every `+` is kept, wherever it occurs). -/
def normalizePhone (s : String) : String :=
  ⟨s.data.filter isPhoneKept⟩

/-- The `locationSchema.phone_number` validator: `/^\+\d{7,15}$/.test(v)` —
the value starts with `+` followed by 7 to 15 digits and nothing else. -/
def validPhone (s : String) : Bool :=
  match s.data with
  | c :: rest =>
      c == '+' && rest.all Char.isDigit &&
        decide (7 ≤ rest.length) && decide (rest.length ≤ 15)
  | [] => false

/-- A raw phone number is stored iff its setter-normalized form passes the
validator. -/
def phoneAccepted (s : String) : Bool :=
  validPhone (normalizePhone s)

/-- The claim's reading of the phone setter: keep digits, and keep a `+` only
when it is the leading character of the raw input. Compared against
`normalizePhone`, which the source implements. -/
def specNormalizePhone (s : String) : String :=
  match s.data with
  | '+' :: rest => ⟨'+' :: rest.filter Char.isDigit⟩
  | l => ⟨l.filter Char.isDigit⟩

/-- Reservation status enum of `reservationSchema.status`. -/
inductive RStatus where
  | pending
  | confirmed
  | cancelled
  | completed
deriving DecidableEq, Repr, BEq

/-- The spec's legal admin-driven status transitions, stated for comparison
with what `updateReservationStatus` actually enforces. -/
def specAllowedTransition : RStatus → RStatus → Bool
  | .pending, .confirmed => true
  | .pending, .cancelled => true
  | .confirmed, .completed => true
  | .confirmed, .cancelled => true
  | _, _ => false

/-- `models/State.js` document (fields no verified property touches are
omitted). -/
structure StateRec where
  id : Nat
  name : String
deriving DecidableEq, Repr

/-- `models/City.js` document. -/
structure CityRec where
  id : Nat
  name : String
  stateId : Nat
deriving DecidableEq, Repr

/-- `models/Location.js` document; `deleted` is the nullable soft-delete
date. Presentation fields (name, address, phone_number) are carried by the
standalone normalization functions above. -/
structure LocationRec where
  id : Nat
  cityId : Nat
  userId : Nat
  deleted : Option Nat
deriving DecidableEq, Repr

/-- `models/Car.js` document (brand, model, year and the other presentation
attributes are omitted: no verified property touches them). -/
structure CarRec where
  id : Nat
  locationId : Nat
  priceByDay : Nat
  registrationNumber : String
deriving DecidableEq, Repr

/-- `models/User.js` document; `deleted` is the nullable soft-delete date. -/
structure UserRec where
  id : Nat
  deleted : Option Nat
deriving DecidableEq, Repr

/-- `models/Reservation.js` document. `totalPrice: Number` is optional in the
schema and set by the price hook on save. -/
structure ReservationRec where
  id : Nat
  carId : Nat
  userId : Nat
  startDate : Nat
  endDate : Nat
  status : RStatus
  totalPrice : Option Nat
deriving DecidableEq, Repr

/-- The MongoDB database: one collection per model. -/
structure Store where
  states : List StateRec
  cities : List CityRec
  locations : List LocationRec
  cars : List CarRec
  users : List UserRec
  reservations : List ReservationRec
deriving DecidableEq, Repr

/-- Milliseconds per day, the divisor of the price hook. -/
def msPerDay : Nat := 1000 * 60 * 60 * 24

/-- Condition a Mongo query may place on the nullable `deleted` field:
`deleted: null` or `deleted: {$ne: null}` (the shapes `getLocations`
builds from its `deleted` query parameter). -/
inductive DeletedCond where
  | isNull
  | notNull
deriving DecidableEq, Repr

/-- In `if (!this.getOptions().withDeleted && !this._conditions.deleted)` the
second conjunct tests JavaScript truthiness of the condition placed on
`deleted`: absent and `null` are falsy, the object `{$ne: null}` is truthy. -/
def deletedCondTruthy : Option DeletedCond → Bool
  | some .notNull => true
  | _ => false

/-- Conditions of a `Location.find` / `Location.findOne` query, as the
controllers build them. -/
structure LocationConds where
  idEq : Option Nat := none
  cityId : Option Nat := none
  userId : Option Nat := none
  deleted : Option DeletedCond := none
deriving DecidableEq, Repr

/-- Query options; `withDeleted` is read by the soft-delete hook. -/
structure FindOpts where
  withDeleted : Bool := false
deriving DecidableEq, Repr

/-- A location document against the (possibly hook-extended) conditions. -/
def locationMatches (conds : LocationConds) (l : LocationRec) : Bool :=
  (match conds.idEq with | none => true | some i => l.id == i) &&
  (match conds.cityId with | none => true | some i => l.cityId == i) &&
  (match conds.userId with | none => true | some i => l.userId == i) &&
  (match conds.deleted with
   | none => true
   | some .isNull => l.deleted == none
   | some .notNull => !(l.deleted == none))

/-- `locationSchema.pre(/^find/)`: unless the `withDeleted` option is set or
the query already holds a truthy condition on `deleted`, the hook adds
`this.where({ deleted: null })`. -/
def applySoftDeleteHook (opts : FindOpts) (conds : LocationConds) : LocationConds :=
  if !opts.withDeleted && !deletedCondTruthy conds.deleted then
    { conds with deleted := some .isNull }
  else conds

/-- `Location.find(conds).setOptions(opts)`: the pre-find hook rewrites the
conditions, then the collection is filtered. -/
def locationFind (store : Store) (conds : LocationConds) (opts : FindOpts) :
    List LocationRec :=
  store.locations.filter (locationMatches (applySoftDeleteHook opts conds))

/-- `Location.findById(id)` (a `findOne`, so the same `pre(/^find/)` hook
runs): the first document matching the hook-extended conditions. -/
def locationFindById (store : Store) (id : Nat) (opts : FindOpts) :
    Option LocationRec :=
  (locationFind store { idEq := some id } opts).head?

/-- Conditions of a `User.find` query (`userSchema` carries the same
soft-delete hook as `locationSchema`). -/
structure UserConds where
  idEq : Option Nat := none
  deleted : Option DeletedCond := none
deriving DecidableEq, Repr

/-- A user document against user-query conditions. -/
def userMatches (conds : UserConds) (u : UserRec) : Bool :=
  (match conds.idEq with | none => true | some i => u.id == i) &&
  (match conds.deleted with
   | none => true
   | some .isNull => u.deleted == none
   | some .notNull => !(u.deleted == none))

/-- `userSchema.pre(/^find/)`, identical in text to the location hook. -/
def applyUserSoftDeleteHook (opts : FindOpts) (conds : UserConds) : UserConds :=
  if !opts.withDeleted && !deletedCondTruthy conds.deleted then
    { conds with deleted := some .isNull }
  else conds

/-- `User.find(conds).setOptions(opts)`. -/
def userFind (store : Store) (conds : UserConds) (opts : FindOpts) :
    List UserRec :=
  store.users.filter (userMatches (applyUserSoftDeleteHook opts conds))

/-- Errors a reservation save can surface: mongoose `ValidationError`
(mapped to 400 by the controller) or the overlap hook's
`'Car already reserved for these dates'` (mapped to 409). -/
inductive ResErr where
  | validationError
  | conflict
deriving DecidableEq, Repr

/-- The `$nor` overlap query of the second `reservationSchema.pre('save')`
hook: an existing reservation matches
`{carId, $nor: [{endDate: {$lte: start}}, {startDate: {$gte: end}}]}`.
No condition on `status` and no exclusion of the saved document's own id. -/
def overlapQueryMatches (carId s e : Nat) (r : ReservationRec) : Bool :=
  r.carId == carId && !(r.endDate ≤ s) && !(r.startDate ≥ e)

/-- `overlapping.length > 0` for the hook's `find` result. -/
def overlapHookRejects (store : Store) (carId s e : Nat) : Bool :=
  (store.reservations.filter (overlapQueryMatches carId s e)).length > 0

/-- `new Reservation({carId, userId, startDate, endDate}).save()` as the
`createReservation` controller performs it:
1. schema validation — `carId` resolves via `Car.findById`, `userId` via
   `User.findById` (whose soft-delete hook hides deleted users),
   `startDate > new Date()`, `endDate > this.startDate`;
2. first `pre('save')` hook — `totalPrice = Math.ceil((end - start) /
   86400000) * car.priceByDay` with the car re-read from the store;
3. second `pre('save')` hook — the overlap query; a match throws before
   anything is written;
4. the document is inserted with the default `status: 'pending'`.
`now` is the clock read by the start-date validator and `newId` the ObjectId
Mongo assigns. The unchanged store is returned alongside any error. -/
def saveReservation (now : Nat) (store : Store)
    (newId carId userId s e : Nat) : Except ResErr ReservationRec × Store :=
  match store.cars.find? (fun c => c.id == carId) with
  | none => (Except.error ResErr.validationError, store)
  | some car =>
    if (userFind store { idEq := some userId } {}).isEmpty then
      (Except.error ResErr.validationError, store)
    else if !(now < s) then (Except.error ResErr.validationError, store)
    else if !(s < e) then (Except.error ResErr.validationError, store)
    else
      let days := (e - s + msPerDay - 1) / msPerDay
      let price := days * car.priceByDay
      if overlapHookRejects store carId s e then
        (Except.error ResErr.conflict, store)
      else
        let r : ReservationRec :=
          { id := newId, carId := carId, userId := userId, startDate := s,
            endDate := e, status := RStatus.pending, totalPrice := some price }
        (Except.ok r, { store with reservations := store.reservations ++ [r] })

/-- `Reservation.findByIdAndUpdate(id, { status }, { new: true })` from
`updateReservationStatus`: no transition check, no `runValidators`, and as a
query-level update it runs none of the document `save` middleware; only the
`status` path of the matched document is set. Returns the updated document
(`new: true`) and the updated store, or `none` for a 404. -/
def updateReservationStatus (store : Store) (rid : Nat) (st : RStatus) :
    Option (ReservationRec × Store) :=
  match store.reservations.find? (fun r => r.id == rid) with
  | none => none
  | some r =>
      some ({ r with status := st },
        { store with reservations :=
            store.reservations.map (fun x => if x.id == rid then { x with status := st } else x) })

/-- `Car.findByIdAndUpdate(id, updates, ...)` from `updateCar`, for an
`updates` body that changes `priceByDay`: touches only the cars collection. -/
def updateCarPriceByDay (store : Store) (cid newPrice : Nat) :
    Option (CarRec × Store) :=
  match store.cars.find? (fun c => c.id == cid) with
  | none => none
  | some c =>
      some ({ c with priceByDay := newPrice },
        { store with cars :=
            store.cars.map (fun x => if x.id == cid then { x with priceByDay := newPrice } else x) })

/-- `Reservation.deleteMany({carId: {$in: carIds}})` (and, for a one-element
list, `{carId: id}`): the leaf of the cascade, no hook of its own. -/
def reservationDeleteMany (store : Store) (carIds : List Nat) : Store :=
  { store with reservations :=
      store.reservations.filter (fun r => !(carIds.contains r.carId)) }

/-- `Car.deleteMany({locationId: ...})` with `carSchema.pre('deleteMany')`:
the hook re-finds the matched cars (`Car` has no soft-delete filter) and
deletes their reservations, then the cars matching the filter are removed. -/
def carDeleteMany (store : Store) (locIds : List Nat) : Store :=
  let matched := store.cars.filter (fun c => locIds.contains c.locationId)
  let s1 := reservationDeleteMany store (matched.map (fun c => c.id))
  { s1 with cars := s1.cars.filter (fun c => !(locIds.contains c.locationId)) }

/-- `Location.deleteMany({cityId: ...})` with
`locationSchema.pre('deleteMany')`: the hook's `this.model.find(getFilter())`
goes through `locationSchema.pre(/^find/)`, so it sees only locations with
`deleted: null`; their cars are cascade-deleted. The `deleteMany` itself is
not a find-type operation, so it then removes every matching location,
soft-deleted ones included. -/
def locationDeleteMany (store : Store) (cityIds : List Nat) : Store :=
  let matched := store.locations.filter
    (fun l => cityIds.contains l.cityId && l.deleted == none)
  let s1 := carDeleteMany store (matched.map (fun l => l.id))
  { s1 with locations :=
      s1.locations.filter (fun l => !(cityIds.contains l.cityId)) }

/-- `City.deleteMany({stateId: ...})` with `citySchema.pre('deleteMany')`:
the hook re-finds the matched cities (`City` has no soft-delete filter) and
cascade-deletes their locations, then the cities are removed. -/
def cityDeleteMany (store : Store) (stateIds : List Nat) : Store :=
  let matched := store.cities.filter (fun c => stateIds.contains c.stateId)
  let s1 := locationDeleteMany store (matched.map (fun c => c.id))
  { s1 with cities :=
      s1.cities.filter (fun c => !(stateIds.contains c.stateId)) }

/-- `deleteState`: `State.findByIdAndDelete(id)`, which triggers
`stateSchema.pre('findOneAndDelete')` — the hook re-finds the document and
runs `City.deleteMany({stateId: doc._id})` — and then deletes the state
itself. `none` is the controller's 404 path. -/
def deleteState (store : Store) (sid : Nat) : Option Store :=
  match store.states.find? (fun s => s.id == sid) with
  | none => none
  | some doc =>
      let s1 := cityDeleteMany store [doc.id]
      some { s1 with states := s1.states.filter (fun s => !(s.id == sid)) }

/-- `deleteLocation`: `Location.findByIdAndDelete(id)`. `locationSchema` has
cascade hooks only for document `deleteOne` and for `deleteMany`; a
`findOneAndDelete` triggers neither, so no cascade runs. The only middleware
that fires is `pre(/^find/)`, which hides soft-deleted documents from the
lookup. The matched document alone is removed. -/
def deleteLocation (store : Store) (lid : Nat) : Option Store :=
  match store.locations.find? (fun l => l.id == lid && l.deleted == none) with
  | none => none
  | some _ =>
      some { store with locations :=
        store.locations.filter (fun l => !(l.id == lid && l.deleted == none)) }

/-- `locationSchema.pre('deleteOne', { document: true })` as a document
deletion would run it: cars of the location (then their reservations) are
cascade-deleted before the location itself — the cascade the schema defines
but `deleteLocation` never triggers. -/
def locationDeleteOneDoc (store : Store) (lid : Nat) : Store :=
  let s1 := carDeleteMany store [lid]
  { s1 with locations := s1.locations.filter (fun l => !(l.id == lid)) }

/-- Errors of `createCity`: the controller's manual state check (400), or the
duplicate-key error 11000 from the `{stateId: 1, name: 1}` unique index
(mapped to 409 `'City already exists in this state'`). -/
inductive CityErr where
  | invalidState
  | duplicateKey
deriving DecidableEq, Repr

/-- `createCity`: `State.exists({_id: stateId})`, then
`new City({name, stateId}).save()` — the name setter normalizes on
assignment, and the insert hits the unique compound index on
`(stateId, name)`, modelled as the pre-insert check the index enforces. -/
def createCity (store : Store) (newId : Nat) (rawName : String)
    (stateId : Nat) : Except CityErr (CityRec × Store) :=
  if !(store.states.any (fun s => s.id == stateId)) then
    Except.error CityErr.invalidState
  else
    let name := normalizeName rawName
    if store.cities.any (fun c => c.stateId == stateId && c.name == name) then
      Except.error CityErr.duplicateKey
    else
      let city : CityRec := { id := newId, name := name, stateId := stateId }
      Except.ok (city, { store with cities := store.cities ++ [city] })

lemma contains_true_iff (l : List Nat) (a : Nat) : l.contains a = true ↔ a ∈ l := by
  simp [List.contains_eq_any_beq, List.any_eq_true, eq_comm]

lemma contains_false_iff (l : List Nat) (a : Nat) : l.contains a = false ↔ a ∉ l := by
  rw [← Bool.not_eq_true, not_iff_not, contains_true_iff]

/-- The overlap hook rejects exactly when some stored reservation of the car
has a half-open interval overlapping the requested one — its status plays no
role in the query. -/
lemma overlapHookRejects_iff (store : Store) (carId s e : Nat) :
    overlapHookRejects store carId s e = true ↔
      ∃ r ∈ store.reservations, r.carId = carId ∧ s < r.endDate ∧ r.startDate < e := by
  unfold overlapHookRejects overlapQueryMatches
  rw [decide_eq_true_eq, gt_iff_lt, List.length_pos, ne_eq, List.filter_eq_nil_iff]
  push_neg
  simp [Nat.not_le, ge_iff_le, and_assoc]

/-- Store of the C10 scenario: one persisted pending reservation. -/
def c10Store : Store :=
  { states := [], cities := [], locations := [], cars := [], users := [],
    reservations := [{ id := 3, carId := 1, userId := 2, startDate := 100,
                       endDate := 200, status := RStatus.pending,
                       totalPrice := some 300 }] }

/-- The C10 reservation already in `c10Store`. -/
def c10Res : ReservationRec :=
  { id := 3, carId := 1, userId := 2, startDate := 100, endDate := 200,
    status := RStatus.pending, totalPrice := some 300 }

/-- C10: the overlap query of the save hook does not exclude the document
being saved: any persisted reservation (with a non-degenerate interval) is
itself a match of the query run with its own `carId`/`startDate`/`endDate`,
so re-running the save path on it trips the hook's
`'Car already reserved for these dates'` rejection. -/
theorem c10_overlap_check_finds_own_interval (store : Store)
    (r : ReservationRec) (hmem : r ∈ store.reservations)
    (hlt : r.startDate < r.endDate) :
    r ∈ store.reservations.filter
        (overlapQueryMatches r.carId r.startDate r.endDate) ∧
    overlapHookRejects store r.carId r.startDate r.endDate = true := by
  have hmatch : overlapQueryMatches r.carId r.startDate r.endDate r = true := by
    unfold overlapQueryMatches
    simp [Nat.not_le, ge_iff_le]
    omega
  refine ⟨List.mem_filter.mpr ⟨hmem, hmatch⟩, ?_⟩
  rw [overlapHookRejects_iff]
  exact ⟨r, hmem, rfl, hlt, hlt⟩

/-- C10 at a concrete persisted reservation. -/
theorem c10_witness :
    c10Res ∈ c10Store.reservations.filter
        (overlapQueryMatches c10Res.carId c10Res.startDate c10Res.endDate) ∧
    overlapHookRejects c10Store c10Res.carId c10Res.startDate c10Res.endDate = true :=
  c10_overlap_check_finds_own_interval c10Store c10Res (by decide) (by decide)

/-- Store of the C2 scenario: one completed reservation. -/
def c2Store : Store :=
  { states := [], cities := [], locations := [], cars := [], users := [],
    reservations := [{ id := 3, carId := 1, userId := 2, startDate := 100,
                       endDate := 200, status := RStatus.completed,
                       totalPrice := some 300 }] }

/-- C2 counterexample: the spec forbids `completed → pending`, but
`updateReservationStatus` applies it — the update succeeds and the stored
status becomes `pending`, with no `StateTransitionError` anywhere in the
code path. -/
theorem c2_counterexample :
    specAllowedTransition RStatus.completed RStatus.pending = false ∧
    Option.map (fun p => p.1.status)
      (updateReservationStatus c2Store 3 RStatus.pending) =
        some RStatus.pending := by decide

/-- C2 amended: `updateReservationStatus` accepts every requested status for
an existing reservation — `findByIdAndUpdate` runs no transition check and
no validators, so the stored status unconditionally becomes the requested
value. -/
theorem c2_every_transition_accepted (store : Store) (rid : Nat)
    (st : RStatus) (h : ∃ r ∈ store.reservations, r.id = rid) :
    ∃ p, updateReservationStatus store rid st = some p ∧ p.1.status = st := by
  obtain ⟨r, hr, hid⟩ := h
  have hsome : (store.reservations.find? (fun x => x.id == rid)).isSome = true :=
    List.find?_isSome.mpr ⟨r, hr, by simp [hid]⟩
  obtain ⟨r0, hr0⟩ := Option.isSome_iff_exists.mp hsome
  refine ⟨({ r0 with status := st },
           { store with
              reservations := store.reservations.map
                                (fun x => if x.id == rid then { x with status := st } else x) }),
    ?_, rfl⟩
  unfold updateReservationStatus
  rw [hr0]

/-- C2 amended theorem at the concrete `c2Store`. -/
theorem c2_witness :
    ∃ p, updateReservationStatus c2Store 3 RStatus.confirmed = some p ∧
      p.1.status = RStatus.confirmed :=
  c2_every_transition_accepted c2Store 3 RStatus.confirmed (by decide)

/-- Store of the C3 scenario: a live location with one car on it and one
reservation on that car. -/
def c3Store : Store :=
  { states := [], cities := [],
    locations := [{ id := 10, cityId := 20, userId := 2, deleted := none }],
    cars := [{ id := 1, locationId := 10, priceByDay := 100,
               registrationNumber := "ABC123" }],
    users := [{ id := 2, deleted := none }],
    reservations := [{ id := 3, carId := 1, userId := 2, startDate := 100,
                       endDate := 200, status := RStatus.pending,
                       totalPrice := some 100 }] }

/-- C3: the public `deleteLocation` (`findByIdAndDelete`) removes only the
location document — its car and the car's reservation survive, because the
schema's cascade hook is registered for document `deleteOne` and a
`findOneAndDelete` never triggers it. The second and third conjuncts show
the cascade that same hook performs when it does run, which is what the
schema (and the spec) intend. -/
theorem c3_public_location_delete_orphans_cars :
    deleteLocation c3Store 10 = some { c3Store with locations := [] } ∧
    (locationDeleteOneDoc c3Store 10).cars = [] ∧
    (locationDeleteOneDoc c3Store 10).reservations = [] := by decide

/-- C9: a status update through `updateReservationStatus` is a pure frame
on everything but the `status` path: every other collection is untouched,
untargeted reservations are kept verbatim, the targeted one keeps its
`carId`, `userId`, `startDate`, `endDate` and `totalPrice`, nothing else
enters the collection — and the update succeeds whenever the id exists,
with neither the price hook nor the overlap hook consulted (they are `save`
middleware, which `findByIdAndUpdate` bypasses). -/
theorem c9_status_update_touches_only_status (store : Store) (rid : Nat)
    (st : RStatus) :
    (∀ p, updateReservationStatus store rid st = some p →
      p.2.states = store.states ∧ p.2.cities = store.cities ∧
      p.2.locations = store.locations ∧ p.2.cars = store.cars ∧
      p.2.users = store.users ∧
      (∀ r ∈ store.reservations, r.id ≠ rid → r ∈ p.2.reservations) ∧
      (∀ r ∈ store.reservations, r.id = rid →
        { r with status := st } ∈ p.2.reservations) ∧
      (∀ r' ∈ p.2.reservations, ∃ r ∈ store.reservations,
        r' = r ∨ r' = { r with status := st })) ∧
    ((∃ r ∈ store.reservations, r.id = rid) →
      (updateReservationStatus store rid st).isSome = true) := by
  constructor
  · intro p hp
    unfold updateReservationStatus at hp
    cases hfind : store.reservations.find? (fun x => x.id == rid) with
    | none => rw [hfind] at hp; exact absurd hp (by simp)
    | some r0 =>
      rw [hfind] at hp
      cases hp
      refine ⟨rfl, rfl, rfl, rfl, rfl, ?_, ?_, ?_⟩
      · intro r hr hne
        exact List.mem_map.mpr ⟨r, hr, by rw [if_neg (by simp [hne])]⟩
      · intro r hr heq
        exact List.mem_map.mpr ⟨r, hr, by rw [if_pos (by simp [heq])]⟩
      · intro r' hr'
        obtain ⟨r, hr, hfr⟩ := List.mem_map.mp hr'
        by_cases h : r.id = rid
        · exact ⟨r, hr, Or.inr (by rw [← hfr, if_pos (by simp [h])])⟩
        · exact ⟨r, hr, Or.inl (by rw [← hfr, if_neg (by simp [h])])⟩
  · intro h
    obtain ⟨r, hr, hid⟩ := h
    have hsome : (store.reservations.find? (fun x => x.id == rid)).isSome = true :=
      List.find?_isSome.mpr ⟨r, hr, by simp [hid]⟩
    obtain ⟨r0, hr0⟩ := Option.isSome_iff_exists.mp hsome
    unfold updateReservationStatus
    rw [hr0]
    rfl

lemma locationMatches_deleted_isNull {conds : LocationConds} {l : LocationRec}
    (hd : conds.deleted = some DeletedCond.isNull)
    (h : locationMatches conds l = true) : l.deleted = none := by
  unfold locationMatches at h
  rw [hd] at h
  simp only [Bool.and_eq_true, beq_iff_eq] at h
  tauto

/-- C6: the soft-delete visibility filter on `Location` (and the identical
one on `User`). By default every find-style read sees only documents with
`deleted: null`; the `withDeleted` option or an explicit truthy condition on
`deleted` brings soft-deleted documents back; and a single-document lookup
by id (`findById`, i.e. `findOne`) obeys exactly the same default/override
rule as a list query. -/
theorem c6_soft_delete_filter_default_and_override (store : Store) :
    (∀ conds : LocationConds, conds.deleted = none →
      ∀ l ∈ locationFind store conds {}, l.deleted = none) ∧
    (∀ l ∈ store.locations, l.deleted = none → l ∈ locationFind store {} {}) ∧
    (∀ l ∈ store.locations, l ∈ locationFind store {} { withDeleted := true }) ∧
    (∀ l ∈ store.locations, l.deleted ≠ none →
      l ∈ locationFind store { deleted := some DeletedCond.notNull } {}) ∧
    (∀ id, locationFindById store id {} =
      (store.locations.filter (fun l => l.id == id && l.deleted == none)).head?) ∧
    (∀ id, locationFindById store id { withDeleted := true } =
      (store.locations.filter (fun l => l.id == id)).head?) ∧
    (∀ u ∈ userFind store {} {}, u.deleted = none) ∧
    (∀ u ∈ store.users, u ∈ userFind store {} { withDeleted := true }) := by
  refine ⟨?_, ?_, ?_, ?_, ?_, ?_, ?_, ?_⟩
  · intro conds hdel l hl
    unfold locationFind applySoftDeleteHook at hl
    rw [hdel] at hl
    simp only [deletedCondTruthy, Bool.not_false, Bool.and_self, if_true] at hl
    exact locationMatches_deleted_isNull rfl (List.mem_filter.mp hl).2
  · intro l hl hdel
    unfold locationFind applySoftDeleteHook
    exact List.mem_filter.mpr ⟨hl, by simp [locationMatches, deletedCondTruthy, hdel]⟩
  · intro l hl
    unfold locationFind applySoftDeleteHook
    exact List.mem_filter.mpr ⟨hl, by simp [locationMatches, deletedCondTruthy]⟩
  · intro l hl hdel
    unfold locationFind applySoftDeleteHook
    exact List.mem_filter.mpr ⟨hl, by simp [locationMatches, deletedCondTruthy, hdel]⟩
  · intro id
    unfold locationFindById locationFind applySoftDeleteHook
    congr 1
    refine List.filter_congr ?_
    intro l _
    simp [locationMatches, deletedCondTruthy]
  · intro id
    unfold locationFindById locationFind applySoftDeleteHook
    congr 1
    refine List.filter_congr ?_
    intro l _
    simp [locationMatches, deletedCondTruthy]
  · intro u hu
    unfold userFind applyUserSoftDeleteHook at hu
    simp only [deletedCondTruthy, Bool.not_false, Bool.and_self, if_true] at hu
    have h := (List.mem_filter.mp hu).2
    unfold userMatches at h
    simp only [Bool.and_eq_true, beq_iff_eq] at h
    tauto
  · intro u hu
    unfold userFind applyUserSoftDeleteHook
    exact List.mem_filter.mpr ⟨hu, by simp [userMatches, deletedCondTruthy]⟩

/-- C7: `State.name` and `City.name` are stored trimmed and title-cased by
the shared setter (so `" san jose "` is stored as `"San Jose"`), and city
uniqueness is the compound `(stateId, name)` index over stored (normalized)
values: creating a duplicate normalized name under the same state is the
`DuplicateError` path, while any non-duplicate pair under an existing state
inserts the normalized city. -/
theorem c7_city_name_normalization_and_scoped_uniqueness :
    normalizeName " san jose " = "San Jose" ∧
    (∀ (store : Store) (newId : Nat) (raw : String) (sid : Nat),
      store.states.any (fun s => s.id == sid) = true →
      ((createCity store newId raw sid = Except.error CityErr.duplicateKey ↔
         ∃ c ∈ store.cities, c.stateId = sid ∧ c.name = normalizeName raw) ∧
       (∀ city store', createCity store newId raw sid = Except.ok (city, store') →
         city.name = normalizeName raw ∧ city.stateId = sid ∧
         store'.cities = store.cities ++ [city]) ∧
       ((¬ ∃ c ∈ store.cities, c.stateId = sid ∧ c.name = normalizeName raw) →
         ∃ city store', createCity store newId raw sid = Except.ok (city, store')))) := by
  constructor
  · rfl
  · intro store newId raw sid hstate
    unfold createCity
    rw [hstate]
    simp only [Bool.not_true, Bool.false_eq_true, if_false]
    by_cases hdup : store.cities.any
        (fun c => c.stateId == sid && c.name == normalizeName raw) = true
    · rw [if_pos hdup]
      refine ⟨?_, ?_, ?_⟩
      · simp only [true_iff]
        obtain ⟨c, hc, hmatch⟩ := List.any_eq_true.mp hdup
        simp only [Bool.and_eq_true, beq_iff_eq] at hmatch
        exact ⟨c, hc, hmatch⟩
      · intro city store' h
        exact absurd h (by simp)
      · intro hno
        exfalso
        obtain ⟨c, hc, hmatch⟩ := List.any_eq_true.mp hdup
        simp only [Bool.and_eq_true, beq_iff_eq] at hmatch
        exact hno ⟨c, hc, hmatch⟩
    · rw [if_neg hdup]
      refine ⟨?_, ?_, ?_⟩
      · constructor
        · intro h
          exact absurd h (by simp)
        · intro ⟨c, hc, h1, h2⟩
          exact absurd (List.any_eq_true.mpr ⟨c, hc, by simp [h1, h2]⟩) hdup
      · intro city store' h
        obtain ⟨h1, h2⟩ := Prod.mk.injEq .. ▸ Except.ok.inj h
        refine ⟨?_, ?_, ?_⟩
        · rw [← h1]
        · rw [← h1]
        · rw [← h2, ← h1]
      · intro _
        exact ⟨_, _, rfl⟩

instance : DecidableEq (Except ResErr ReservationRec) := fun a b =>
  match a, b with
  | Except.ok x, Except.ok y =>
      if h : x = y then isTrue (by rw [h]) else isFalse (by simp [h])
  | Except.error x, Except.error y =>
      if h : x = y then isTrue (by rw [h]) else isFalse (by simp [h])
  | Except.ok _, Except.error _ => isFalse (by simp)
  | Except.error _, Except.ok _ => isFalse (by simp)

/-- Store of the C1 counterexample: the car's only existing reservation
(days 2..5) is cancelled. -/
def c1Store : Store :=
  { states := [], cities := [], locations := [],
    cars := [{ id := 1, locationId := 10, priceByDay := 100,
               registrationNumber := "ABC123" }],
    users := [{ id := 2, deleted := none }],
    reservations := [{ id := 3, carId := 1, userId := 2,
                       startDate := 2 * msPerDay, endDate := 5 * msPerDay,
                       status := RStatus.cancelled, totalPrice := some 300 }] }

/-- C1 counterexample: a request for days 3..4 of that car is rejected with
the conflict error although every existing reservation of the car is
cancelled — the overlap query has no status condition, so the claim's
"status is not cancelled" restriction does not hold of the code. -/
theorem c1_counterexample :
    (saveReservation 0 c1Store 4 1 2 (3 * msPerDay) (4 * msPerDay)).1 =
      Except.error ResErr.conflict ∧
    c1Store.reservations.all (fun r => r.status == RStatus.cancelled) = true := by
  decide

/-- C1 amended: `createReservation` rejects with the conflict error exactly
when the request passes validation (car exists, user exists and is not
soft-deleted, `now < startDate < endDate`) and the half-open interval
`[startDate, endDate)` overlaps the interval of some existing reservation
of the same car of any status, cancelled included (`s1 < e2 ∧ s2 < e1`);
touching intervals are therefore accepted, and on any rejection the store
is unchanged. -/
theorem c1_conflict_iff_overlap_any_status (now : Nat) (store : Store)
    (newId carId userId s e : Nat) :
    ((saveReservation now store newId carId userId s e).1 =
        Except.error ResErr.conflict ↔
      ((store.cars.find? (fun c => c.id == carId)).isSome = true ∧
       (userFind store { idEq := some userId } {}).isEmpty = false ∧
       now < s ∧ s < e ∧
       ∃ r ∈ store.reservations, r.carId = carId ∧ s < r.endDate ∧
         r.startDate < e)) ∧
    (∀ err, (saveReservation now store newId carId userId s e).1 =
        Except.error err →
      (saveReservation now store newId carId userId s e).2 = store) := by
  unfold saveReservation
  cases hfind : store.cars.find? (fun c => c.id == carId) with
  | none =>
    refine ⟨?_, ?_⟩
    · simp
    · intro err _
      rfl
  | some car =>
    dsimp only
    by_cases hu : (userFind store { idEq := some userId } {}).isEmpty = true
    · refine ⟨?_, ?_⟩
      · rw [if_pos hu]
        simp [hu]
      · intro err _
        rw [if_pos hu]
    · rw [if_neg hu]
      by_cases hns : now < s
      · rw [if_neg (by simpa using hns)]
        by_cases hse : s < e
        · rw [if_neg (by simpa using hse)]
          by_cases hov : overlapHookRejects store carId s e = true
          · rw [if_pos hov]
            refine ⟨?_, fun err _ => rfl⟩
            simp only [true_iff, iff_true]
            exact ⟨by simp, by simpa using hu, hns, hse,
              (overlapHookRejects_iff store carId s e).mp hov⟩
          · rw [if_neg hov]
            refine ⟨?_, ?_⟩
            · constructor
              · intro h
                exact absurd h (by simp)
              · rintro ⟨-, -, -, -, hex⟩
                exact absurd ((overlapHookRejects_iff store carId s e).mpr hex) hov
            · intro err h
              exact absurd h (by simp)
        · rw [if_pos (by simpa using hse)]
          refine ⟨?_, fun err _ => rfl⟩
          constructor
          · intro h
            exact absurd h (by simp)
          · rintro ⟨-, -, -, hse2, -⟩
            exact absurd hse2 hse
      · rw [if_pos (by simpa using hns)]
        refine ⟨?_, fun err _ => rfl⟩
        constructor
        · intro h
          exact absurd h (by simp)
        · rintro ⟨-, -, hns2, -, -⟩
          exact absurd hns2 hns

/-- `cid` is the id of a city of `store` that belongs to state `sid`. -/
def cityUnder (store : Store) (sid cid : Nat) : Prop :=
  ∃ c ∈ store.cities, c.id = cid ∧ c.stateId = sid

/-- `lid` is the id of a location of `store` transitively under state `sid`. -/
def locUnder (store : Store) (sid lid : Nat) : Prop :=
  ∃ l ∈ store.locations, l.id = lid ∧ cityUnder store sid l.cityId

/-- `kid` is the id of a car of `store` transitively under state `sid`. -/
def carUnder (store : Store) (sid kid : Nat) : Prop :=
  ∃ k ∈ store.cars, k.id = kid ∧ locUnder store sid k.locationId

instance cityUnderDecidable (store : Store) (sid cid : Nat) :
    Decidable (cityUnder store sid cid) := by
  unfold cityUnder
  exact List.decidableBEx _ _

instance locUnderDecidable (store : Store) (sid lid : Nat) :
    Decidable (locUnder store sid lid) := by
  unfold locUnder
  exact List.decidableBEx _ _

instance carUnderDecidable (store : Store) (sid kid : Nat) :
    Decidable (carUnder store sid kid) := by
  unfold carUnder
  exact List.decidableBEx _ _

/-- Store of the C4 counterexample: a full state chain in which the one
location is soft-deleted (`deleted` set). -/
def c4Store : Store :=
  { states := [{ id := 1, name := "California" }],
    cities := [{ id := 2, name := "San Jose", stateId := 1 }],
    locations := [{ id := 10, cityId := 2, userId := 7, deleted := some 5 }],
    cars := [{ id := 20, locationId := 10, priceByDay := 100,
               registrationNumber := "XYZ789" }],
    users := [{ id := 7, deleted := none }],
    reservations := [{ id := 30, carId := 20, userId := 7, startDate := 100,
                       endDate := 200, status := RStatus.pending,
                       totalPrice := some 100 }] }

/-- C4 counterexample: deleting the state removes the state, its city and
even the soft-deleted location, but the location's car and that car's
reservation survive — the `deleteMany` cascade hook loads locations through
`find`, whose soft-delete filter hides the location, so its subtree is never
cascaded. The surviving car still references the deleted state transitively. -/
theorem c4_counterexample :
    deleteState c4Store 1 =
      some { states := [], cities := [], locations := [],
             cars := c4Store.cars, users := c4Store.users,
             reservations := c4Store.reservations } ∧
    carUnder c4Store 1 20 := by decide

/-- C4 amended: when no location under the state is soft-deleted, the public
state deletion removes every city with that `stateId`, every location under
those cities, every car under those locations and every reservation on those
cars, together with the state itself — afterwards no surviving record of any
of the four types references the deleted state transitively. -/
theorem c4_state_delete_cascades_when_locations_live (store : Store)
    (sid : Nat) (store' : Store)
    (hdel : deleteState store sid = some store')
    (hlive : ∀ l ∈ store.locations, cityUnder store sid l.cityId →
      l.deleted = none) :
    (∀ st ∈ store'.states, st.id ≠ sid) ∧
    (∀ c ∈ store'.cities, c.stateId ≠ sid) ∧
    (∀ l ∈ store'.locations, ¬ cityUnder store sid l.cityId) ∧
    (∀ k ∈ store'.cars, ¬ locUnder store sid k.locationId) ∧
    (∀ r ∈ store'.reservations, ¬ carUnder store sid r.carId) := by
  unfold deleteState at hdel
  cases hfind : store.states.find? (fun x => x.id == sid) with
  | none =>
    rw [hfind] at hdel
    exact absurd hdel (by simp)
  | some doc =>
    rw [hfind] at hdel
    have hdoc : doc.id = sid := by simpa using List.find?_some hfind
    cases hdel
    dsimp only [cityDeleteMany, locationDeleteMany, carDeleteMany,
      reservationDeleteMany]
    refine ⟨?_, ?_, ?_, ?_, ?_⟩
    · intro st hst
      simpa using (List.mem_filter.mp hst).2
    · intro c hc heq
      have h2 := (List.mem_filter.mp hc).2
      rw [Bool.not_eq_true', contains_false_iff] at h2
      exact h2 (by simp [heq, hdoc])
    · intro l hl hunder
      have h2 := (List.mem_filter.mp hl).2
      rw [Bool.not_eq_true', contains_false_iff] at h2
      apply h2
      obtain ⟨c, hc, hcid, hcsid⟩ := hunder
      exact List.mem_map.mpr ⟨c, List.mem_filter.mpr
        ⟨hc, by rw [contains_true_iff]; simp [hcsid, hdoc]⟩, hcid⟩
    · intro k hk hunder
      have h2 := (List.mem_filter.mp hk).2
      rw [Bool.not_eq_true', contains_false_iff] at h2
      apply h2
      obtain ⟨l, hlmem, hlid, hlcity⟩ := hunder
      have hLdel : l.deleted = none := hlive l hlmem hlcity
      refine List.mem_map.mpr ⟨l, List.mem_filter.mpr ⟨hlmem, ?_⟩, hlid⟩
      have hcontains : ((store.cities.filter
          (fun c => [doc.id].contains c.stateId)).map (fun c => c.id)).contains
            l.cityId = true := by
        rw [contains_true_iff]
        obtain ⟨c, hc, hcid, hcsid⟩ := hlcity
        exact List.mem_map.mpr ⟨c, List.mem_filter.mpr
          ⟨hc, by rw [contains_true_iff]; simp [hcsid, hdoc]⟩, hcid⟩
      rw [Bool.and_eq_true]
      exact ⟨hcontains, by simp [hLdel]⟩
    · intro r hr hunder
      have h2 := (List.mem_filter.mp hr).2
      rw [Bool.not_eq_true', contains_false_iff] at h2
      apply h2
      obtain ⟨k, hkmem, hkid, hkloc⟩ := hunder
      refine List.mem_map.mpr ⟨k, List.mem_filter.mpr ⟨hkmem, ?_⟩, hkid⟩
      rw [contains_true_iff]
      obtain ⟨l, hlmem, hlid, hlcity⟩ := hkloc
      have hLdel : l.deleted = none := hlive l hlmem hlcity
      refine List.mem_map.mpr ⟨l, List.mem_filter.mpr ⟨hlmem, ?_⟩, hlid⟩
      have hcontains : ((store.cities.filter
          (fun c => [doc.id].contains c.stateId)).map (fun c => c.id)).contains
            l.cityId = true := by
        rw [contains_true_iff]
        obtain ⟨c, hc, hcid, hcsid⟩ := hlcity
        exact List.mem_map.mpr ⟨c, List.mem_filter.mpr
          ⟨hc, by rw [contains_true_iff]; simp [hcsid, hdoc]⟩, hcid⟩
      rw [Bool.and_eq_true]
      exact ⟨hcontains, by simp [hLdel]⟩

/-- The C4 store with its location live instead of soft-deleted. -/
def c4LiveStore : Store :=
  { states := [{ id := 1, name := "California" }],
    cities := [{ id := 2, name := "San Jose", stateId := 1 }],
    locations := [{ id := 10, cityId := 2, userId := 7, deleted := none }],
    cars := [{ id := 20, locationId := 10, priceByDay := 100,
               registrationNumber := "XYZ789" }],
    users := [{ id := 7, deleted := none }],
    reservations := [{ id := 30, carId := 20, userId := 7, startDate := 100,
                       endDate := 200, status := RStatus.pending,
                       totalPrice := some 100 }] }

/-- What `deleteState` leaves of `c4LiveStore`: only the user. -/
def c4LiveResult : Store :=
  { states := [], cities := [], locations := [], cars := [],
    users := [{ id := 7, deleted := none }], reservations := [] }

/-- C4 amended theorem at the concrete live chain. -/
theorem c4_witness :
    (∀ st ∈ c4LiveResult.states, st.id ≠ 1) ∧
    (∀ c ∈ c4LiveResult.cities, c.stateId ≠ 1) ∧
    (∀ l ∈ c4LiveResult.locations, ¬ cityUnder c4LiveStore 1 l.cityId) ∧
    (∀ k ∈ c4LiveResult.cars, ¬ locUnder c4LiveStore 1 k.locationId) ∧
    (∀ r ∈ c4LiveResult.reservations, ¬ carUnder c4LiveStore 1 r.carId) :=
  c4_state_delete_cascades_when_locations_live c4LiveStore 1 c4LiveResult
    (by decide) (by decide)

/-- C5: an accepted reservation is priced by the first save hook as
`Math.ceil((endDate - startDate) / msPerDay) * car.priceByDay`, using the
car's `priceByDay` read from the store at creation time; and a later change
of a car's `priceByDay` through `updateCar` touches only the cars
collection, so no stored `totalPrice` is ever recomputed. -/
theorem c5_total_price_snapshot (now : Nat) (store : Store)
    (newId carId userId s e : Nat) (r : ReservationRec) (store' : Store)
    (hsave : saveReservation now store newId carId userId s e =
      (Except.ok r, store')) :
    ∃ car, store.cars.find? (fun c => c.id == carId) = some car ∧
      r.totalPrice = some (((e - s) ⌈/⌉ msPerDay) * car.priceByDay) ∧
      r.startDate = s ∧ r.endDate = e ∧
      (∀ (base : Store) (cid np : Nat) (q : CarRec × Store),
        updateCarPriceByDay base cid np = some q →
        q.2.reservations = base.reservations) := by
  have hframe : ∀ (base : Store) (cid np : Nat) (q : CarRec × Store),
      updateCarPriceByDay base cid np = some q →
      q.2.reservations = base.reservations := by
    intro base cid np q hq
    unfold updateCarPriceByDay at hq
    cases hfind2 : base.cars.find? (fun c => c.id == cid) with
    | none =>
      rw [hfind2] at hq
      exact absurd hq (by simp)
    | some c0 =>
      rw [hfind2] at hq
      cases hq
      rfl
  unfold saveReservation at hsave
  cases hfind : store.cars.find? (fun c => c.id == carId) with
  | none =>
    rw [hfind] at hsave
    exact absurd hsave (by simp)
  | some car =>
    rw [hfind] at hsave
    dsimp only at hsave
    by_cases hu : (userFind store { idEq := some userId } {}).isEmpty = true
    · rw [if_pos hu] at hsave
      exact absurd hsave (by simp)
    · rw [if_neg hu] at hsave
      by_cases hns : now < s
      · rw [if_neg (by simpa using hns)] at hsave
        by_cases hse : s < e
        · rw [if_neg (by simpa using hse)] at hsave
          by_cases hov : overlapHookRejects store carId s e = true
          · rw [if_pos hov] at hsave
            exact absurd hsave (by simp)
          · rw [if_neg hov] at hsave
            obtain ⟨h1, h2⟩ := Prod.mk.injEq .. ▸ hsave
            obtain rfl := (Except.ok.inj h1).symm
            refine ⟨car, rfl, ?_, rfl, rfl, hframe⟩
            rw [Nat.ceilDiv_eq_add_pred_div]
        · rw [if_pos (by simpa using hse)] at hsave
          exact absurd hsave (by simp)
      · rw [if_pos (by simpa using hns)] at hsave
        exact absurd hsave (by simp)

/-- Store of the C5 witness scenario: one 100-per-day car and one user. -/
def c5Store : Store :=
  { states := [], cities := [], locations := [],
    cars := [{ id := 1, locationId := 10, priceByDay := 100,
               registrationNumber := "ABC123" }],
    users := [{ id := 2, deleted := none }], reservations := [] }

/-- The reservation `saveReservation` creates from days 2..5 of `c5Store`:
3 days at 100 per day, so `totalPrice = 300`. -/
def c5Res : ReservationRec :=
  { id := 3, carId := 1, userId := 2, startDate := 2 * msPerDay,
    endDate := 5 * msPerDay, status := RStatus.pending,
    totalPrice := some 300 }

/-- C5 at the concrete 3-day, 100-per-day creation. -/
theorem c5_witness :
    ∃ car, c5Store.cars.find? (fun c => c.id == 1) = some car ∧
      c5Res.totalPrice =
        some (((5 * msPerDay - 2 * msPerDay) ⌈/⌉ msPerDay) * car.priceByDay) ∧
      c5Res.startDate = 2 * msPerDay ∧ c5Res.endDate = 5 * msPerDay ∧
      (∀ (base : Store) (cid np : Nat) (q : CarRec × Store),
        updateCarPriceByDay base cid np = some q →
        q.2.reservations = base.reservations) :=
  c5_total_price_snapshot 0 c5Store 3 1 2 (2 * msPerDay) (5 * msPerDay) c5Res
    { c5Store with reservations := [c5Res] } (by decide)

lemma dropWhile_head_false {α : Type} {p : α → Bool} :
    ∀ {l : List α} {x : α} {xs : List α}, l.dropWhile p = x :: xs →
      p x = false := by
  intro l
  induction l with
  | nil =>
    intro x xs h
    simp at h
  | cons a t ih =>
    intro x xs h
    rw [List.dropWhile_cons] at h
    by_cases ha : p a = true
    · rw [if_pos ha] at h
      exact ih h
    · rw [if_neg ha] at h
      injection h with h1 _
      subst h1
      simpa using ha

/-- C8 counterexample: on the input `"+1+234567"` the setter keeps the
second `+` (it removes only characters that are neither digits nor `+`),
so the stored value differs from the claim's described normalization and
the validator rejects it, while the claim's normalization would pass. -/
theorem c8_counterexample :
    normalizePhone "+1+234567" = "+1+234567" ∧
    specNormalizePhone "+1+234567" = "+1234567" ∧
    phoneAccepted "+1+234567" = false ∧
    validPhone (specNormalizePhone "+1+234567") = true := by
  decide

/-- C8 amended: the setter keeps every digit and every `+` of the raw input
(wherever the `+` occurs), and the result passes the validator exactly when
the raw input splits as junk (no digits, no `+`), then a single `+`, then a
tail with no further `+` whose digit count is between 7 and 15 — so any
input with a second `+`, or with a digit before its `+`, is rejected. -/
theorem c8_phone_acceptance_characterization (s : String) :
    phoneAccepted s = true ↔
      ∃ pre post, s.data = pre ++ '+' :: post ∧
        (∀ c ∈ pre, isPhoneKept c = false) ∧
        (∀ c ∈ post, c ≠ '+') ∧
        7 ≤ (post.filter Char.isDigit).length ∧
        (post.filter Char.isDigit).length ≤ 15 := by
  constructor
  · intro h
    unfold phoneAccepted normalizePhone validPhone at h
    dsimp only at h
    rcases hcase : s.data.filter isPhoneKept with _ | ⟨c0, rest⟩
    · rw [hcase] at h
      cases h
    · rw [hcase] at h
      simp only [Bool.and_eq_true, beq_iff_eq, decide_eq_true_eq,
        List.all_eq_true] at h
      obtain ⟨⟨⟨hplus, hall⟩, h7⟩, h15⟩ := h
      subst hplus
      have hsplit : s.data.takeWhile (fun c => !isPhoneKept c) ++
          s.data.dropWhile (fun c => !isPhoneKept c) = s.data :=
        List.takeWhile_append_dropWhile _ _
      have hpre_nokept : ∀ c ∈ s.data.takeWhile (fun c => !isPhoneKept c),
          isPhoneKept c = false := by
        intro c hc
        simpa using List.mem_takeWhile_imp hc
      have hfilter_pre : (s.data.takeWhile
          (fun c => !isPhoneKept c)).filter isPhoneKept = [] :=
        List.filter_eq_nil_iff.mpr (fun a ha => by simp [hpre_nokept a ha])
      have hfilter_split : s.data.filter isPhoneKept =
          (s.data.dropWhile (fun c => !isPhoneKept c)).filter isPhoneKept := by
        conv_lhs => rw [← hsplit]
        rw [List.filter_append, hfilter_pre, List.nil_append]
      rcases hrest0 : s.data.dropWhile (fun c => !isPhoneKept c)
        with _ | ⟨d0, dtail⟩
      · rw [hrest0] at hfilter_split
        rw [hfilter_split] at hcase
        cases hcase
      · have hkept_d0 : isPhoneKept d0 = true := by
          simpa using dropWhile_head_false hrest0
        have heq : d0 :: dtail.filter isPhoneKept = '+' :: rest := by
          rw [← List.filter_cons_of_pos hkept_d0, ← hrest0, ← hfilter_split,
            hcase]
        injection heq with hd0 htail
        subst hd0
        have hnoplus : ∀ c ∈ dtail, c ≠ '+' := by
          intro c hc hceq
          subst hceq
          have hmem : '+' ∈ dtail.filter isPhoneKept :=
            List.mem_filter.mpr ⟨hc, by decide⟩
          rw [htail] at hmem
          exact absurd (hall _ hmem) (by decide)
        have hdigits : dtail.filter Char.isDigit = rest := by
          rw [← htail]
          exact (List.filter_congr
            (fun c hc => by simp [isPhoneKept, hnoplus c hc])).symm
        refine ⟨s.data.takeWhile (fun c => !isPhoneKept c), dtail, ?_,
          hpre_nokept, hnoplus, ?_, ?_⟩
        · rw [← hrest0]
          exact hsplit.symm
        · rw [hdigits]
          exact h7
        · rw [hdigits]
          exact h15
  · rintro ⟨pre, post, hdata, hpre, hnoplus, h7, h15⟩
    unfold phoneAccepted normalizePhone validPhone
    dsimp only
    rw [hdata, List.filter_append]
    have hfilter_pre : pre.filter isPhoneKept = [] :=
      List.filter_eq_nil_iff.mpr (fun a ha => by simp [hpre a ha])
    rw [hfilter_pre, List.nil_append,
      List.filter_cons_of_pos (by decide : isPhoneKept '+' = true)]
    have hpost : post.filter isPhoneKept = post.filter Char.isDigit :=
      List.filter_congr (fun c hc => by simp [isPhoneKept, hnoplus c hc])
    rw [hpost]
    simp only [Bool.and_eq_true, beq_self_eq_true, true_and,
      List.all_eq_true, decide_eq_true_eq]
    exact ⟨⟨fun c hc => (List.mem_filter.mp hc).2, h7⟩, h15⟩
